import Mathlib

/-!
Verification of the Figma-component classification-and-diff pipeline.

The development shallowly embeds the decision logic of `src/index.js`:
the string primitives used by the heuristics, the document-node model,
the atomic/screen classifiers, the category rule, the recursive tree walk
of `extractAllNestedComponents`, the registry matching of
`/api/check-component`, and the registry/oracle diff of
`/api/parse-and-check`.  External calls (Figma, GitLab, OpenAI) are
abstracted as explicit inputs; a failed call is `none`.
-/

/- ### String primitives -/

/-- Characters of a string lower-cased.  Embeds JavaScript
`s.toLowerCase()`; the names and patterns in this repository are ASCII,
where `Char.toLower` agrees with the JavaScript conversion. -/
def lowerChars (s : String) : List Char := s.data.map Char.toLower

/-- Does the first list occur as a leading segment of the second?
Helper for `occursIn`. -/
def leadSeg : List Char → List Char → Bool
  | [], _ => true
  | _ :: _, [] => false
  | a :: as, b :: bs => a == b && leadSeg as bs

/-- Does `needle` occur contiguously inside `hay`?  Embeds JavaScript
`hay.includes(needle)`. -/
def occursIn (needle : List Char) : List Char → Bool
  | [] => leadSeg needle []
  | b :: bs => leadSeg needle (b :: bs) || occursIn needle bs

theorem leadSeg_iff (as bs : List Char) :
    leadSeg as bs = true ↔ ∃ rest, bs = as ++ rest := by
  induction as generalizing bs with
  | nil => simp [leadSeg]
  | cons a as ih =>
    cases bs with
    | nil => simp [leadSeg]
    | cons b bs =>
      simp only [leadSeg, Bool.and_eq_true, beq_iff_eq, ih, List.cons_append,
        List.cons.injEq]
      constructor
      · rintro ⟨rfl, rest, rfl⟩
        exact ⟨rest, rfl, rfl⟩
      · rintro ⟨rest, rfl, rfl⟩
        exact ⟨rfl, rest, rfl⟩

/-- `occursIn` really is substring occurrence: `needle` occurs iff `hay`
splits as `pre ++ needle ++ post`. -/
theorem occursIn_iff (needle hay : List Char) :
    occursIn needle hay = true ↔ ∃ pre post, hay = pre ++ needle ++ post := by
  induction hay with
  | nil =>
    simp only [occursIn, leadSeg_iff]
    constructor
    · rintro ⟨rest, h⟩
      rcases List.append_eq_nil.mp h.symm with ⟨h1, h2⟩
      exact ⟨[], [], by simp [h1, h2]⟩
    · rintro ⟨pre, post, h⟩
      rcases List.append_eq_nil.mp h.symm with ⟨h3, h4⟩
      rcases List.append_eq_nil.mp h3 with ⟨h1, h2⟩
      exact ⟨[], by simp [h2, h4]⟩
  | cons b bs ih =>
    simp only [occursIn, Bool.or_eq_true, leadSeg_iff, ih]
    constructor
    · rintro (⟨rest, h⟩ | ⟨pre, post, h⟩)
      · exact ⟨[], rest, by simpa using h⟩
      · exact ⟨b :: pre, post, by simp [h]⟩
    · rintro ⟨pre, post, h⟩
      cases pre with
      | nil => exact Or.inl ⟨post, by simpa using h⟩
      | cons p ps =>
        simp only [List.cons_append, List.cons.injEq] at h
        exact Or.inr ⟨ps, post, h.2⟩

/- ### JavaScript-style comparisons against possibly-absent numbers -/

/-- JavaScript `x < bound` where `x` may be `undefined`: a comparison with
`undefined` is `false` (it goes through `NaN`), never an error. -/
def jsLt (x? : Option Rat) (bound : Rat) : Bool :=
  match x? with
  | none => false
  | some x => decide (x < bound)

/-- JavaScript `x >= bound` where `x` may be `undefined`: `false` when the
value is absent. -/
def jsGe (x? : Option Rat) (bound : Rat) : Bool :=
  match x? with
  | none => false
  | some x => decide (bound ≤ x)

theorem jsLt_iff (x? : Option Rat) (bound : Rat) :
    jsLt x? bound = true ↔ ∃ x, x? = some x ∧ x < bound := by
  cases x? <;> simp [jsLt]

theorem jsGe_iff (x? : Option Rat) (bound : Rat) :
    jsGe x? bound = true ↔ ∃ x, x? = some x ∧ bound ≤ x := by
  cases x? <;> simp [jsGe]

/- ### The document-node model -/

/-- Opaque style payload copied verbatim from a node into a record
(`backgroundColor`, `opacity`, `effects` in the source). -/
structure Styles where
  backgroundColor? : Option String
  opacity? : Option Rat
  effects? : Option String
deriving DecidableEq, Repr

/-- A Figma document node as consumed by the pipeline: `name`, `id` and
`type` are the strings the source reads, `width?`/`height?` embed
`absoluteBoundingBox?.width` / `absoluteBoundingBox?.height` (absent when
the bounding box or the dimension is missing), and `children?`
distinguishes an absent `children` field from an empty list. -/
inductive Node where
  | mk (name id type : String) (width? height? : Option Rat)
      (description? : Option String) (styles : Styles)
      (children? : Option (List Node)) : Node

def Node.name : Node → String
  | .mk nm _ _ _ _ _ _ _ => nm

def Node.id : Node → String
  | .mk _ i _ _ _ _ _ _ => i

def Node.type : Node → String
  | .mk _ _ ty _ _ _ _ _ => ty

def Node.width? : Node → Option Rat
  | .mk _ _ _ w _ _ _ _ => w

def Node.height? : Node → Option Rat
  | .mk _ _ _ _ h _ _ _ => h

def Node.description? : Node → Option String
  | .mk _ _ _ _ _ d _ _ => d

def Node.styles : Node → Styles
  | .mk _ _ _ _ _ _ st _ => st

def Node.children? : Node → Option (List Node)
  | .mk _ _ _ _ _ _ _ ch => ch

/-- The children actually iterated by the walk: an absent `children` field
behaves exactly like an empty list. -/
def childList (n : Node) : List Node := (Node.children? n).getD []

mutual

def size : Node → Nat
  | .mk _ _ _ _ _ _ _ none => 1
  | .mk _ _ _ _ _ _ _ (some cs) => 1 + sizeList cs

def sizeList : List Node → Nat
  | [] => 0
  | c :: cs => size c + sizeList cs

end

theorem sizeList_le_of_mem {c : Node} :
    ∀ cs : List Node, c ∈ cs → size c ≤ sizeList cs := by
  intro cs h
  induction cs with
  | nil => cases h
  | cons a as ih =>
    rcases List.mem_cons.mp h with rfl | h2
    · simp only [sizeList]
      omega
    · have := ih h2
      simp only [sizeList]
      omega

theorem size_pos (n : Node) : 0 < size n := by
  cases n with
  | mk a b c d e f g ch => cases ch <;> simp [size]

theorem size_child_lt {c n : Node} (h : c ∈ childList n) : size c < size n := by
  cases n with
  | mk a b ty d e f g ch =>
    cases ch with
    | none => simp [childList, Node.children?] at h
    | some cs =>
      simp only [childList, Node.children?, Option.getD] at h
      have h1 := sizeList_le_of_mem _ h
      simp only [size]
      omega

/-- Strong induction over document trees: to prove a property of every
node it suffices to prove it for a node assuming it for all children. -/
theorem node_ind (P : Node → Prop)
    (step : ∀ n, (∀ c ∈ childList n, P c) → P n) : ∀ n, P n := by
  intro n
  have H : ∀ k, ∀ m : Node, size m ≤ k → P m := by
    intro k
    induction k with
    | zero =>
      intro m hm
      have := size_pos m
      omega
    | succ k ih =>
      intro m hm
      apply step
      intro c hc
      have := size_child_lt hc
      exact ih c (by omega)
  exact H (size n) n le_rfl

/- ### The classifiers (`isAtomicComponent`, `isScreenOrFrame`) -/

/-- The fixed pattern list of `isAtomicComponent` in the source,
in source order. -/
def atomicPatterns : List String :=
  ["button", "input", "text", "icon", "image", "avatar", "badge",
   "statusbar", "header", "footer", "card", "list", "tab", "modal",
   "checkbox", "radio", "switch", "slider", "progress", "spinner"]

/-- Embedding of `isAtomicComponent` from the source: a COMPONENT or
INSTANCE node whose lower-cased name contains an atomic pattern or whose
bounding box is strictly smaller than 500 in both dimensions. -/
def isAtomicComponent (n : Node) : Bool :=
  let name := lowerChars (Node.name n)
  let isComponent := Node.type n == "COMPONENT" || Node.type n == "INSTANCE"
  let isAtomic := atomicPatterns.any fun pat => occursIn pat.data name
  let isSmall := jsLt (Node.width? n) 500 && jsLt (Node.height? n) 500
  isComponent && (isAtomic || isSmall)

/-- The fixed pattern list of `isScreenOrFrame` in the source. -/
def screenPatterns : List String :=
  ["page", "screen", "view", "layout", "container", "section",
   "home", "dashboard", "profile", "settings"]

/-- Embedding of `isScreenOrFrame` from the source: a FRAME node with a
screen-keyword name or at least 500 wide or at least 500 tall. -/
def isScreenOrFrame (n : Node) : Bool :=
  let name := lowerChars (Node.name n)
  let isFrame := Node.type n == "FRAME"
  let isScreen := screenPatterns.any fun pat => occursIn pat.data name
  let isLarge := jsGe (Node.width? n) 500 || jsGe (Node.height? n) 500
  isFrame && (isScreen || isLarge)

/-- The component categories returned by `determineComponentCategory`. -/
inductive Category where
  | STATUS_BAR
  | BUTTON
  | INPUT
  | TEXT
  | ICON
  | IMAGE
  | AVATAR
  | BADGE
  | CARD
  | LIST
  | TAB
  | MODAL
  | OTHER
deriving DecidableEq, Repr

/-- Embedding of `determineComponentCategory` from the source: the exact
chain of substring checks, in source order, on the lower-cased name. -/
def determineComponentCategory (n : Node) : Category :=
  let name := lowerChars (Node.name n)
  if occursIn "statusbar".data name then .STATUS_BAR
  else if occursIn "button".data name then .BUTTON
  else if occursIn "input".data name || occursIn "textfield".data name then .INPUT
  else if occursIn "text".data name then .TEXT
  else if occursIn "icon".data name then .ICON
  else if occursIn "image".data name then .IMAGE
  else if occursIn "avatar".data name then .AVATAR
  else if occursIn "badge".data name then .BADGE
  else if occursIn "card".data name then .CARD
  else if occursIn "list".data name then .LIST
  else if occursIn "tab".data name then .TAB
  else if occursIn "modal".data name then .MODAL
  else .OTHER

/-- The three classification outcomes of the walk body. -/
inductive NodeClass where
  | atomic
  | screen
  | neither
deriving DecidableEq, Repr

/-- The three-way decision taken by the body of `walk` in
`extractAllNestedComponents`: `isAtomicComponent` first, then
`isScreenOrFrame`, else neither. -/
def classifyNode (n : Node) : NodeClass :=
  if isAtomicComponent n then .atomic
  else if isScreenOrFrame n then .screen
  else .neither

/- ### Claims C2, C3, C4: the classifiers against their specification -/

/-- Claim C2: a node is an atomic component iff its type is COMPONENT or
INSTANCE and either its lower-cased name contains one of the twenty fixed
patterns or both bounding-box dimensions are present and strictly below
500; an absent bounding box or dimension makes the size condition false
rather than an error. -/
theorem atomic_predicate_spec (n : Node) :
    isAtomicComponent n = true ↔
      (Node.type n = "COMPONENT" ∨ Node.type n = "INSTANCE") ∧
        ((∃ pat ∈ atomicPatterns,
            occursIn pat.data (lowerChars (Node.name n)) = true) ∨
          ∃ w h, Node.width? n = some w ∧ Node.height? n = some h ∧
            w < 500 ∧ h < 500) := by
  simp only [isAtomicComponent, Bool.and_eq_true, Bool.or_eq_true, beq_iff_eq,
    List.any_eq_true, jsLt_iff]
  constructor
  · rintro ⟨hty, h⟩
    refine ⟨hty, ?_⟩
    rcases h with h | ⟨⟨w, hw, hw5⟩, ⟨v, hv, hv5⟩⟩
    · exact Or.inl h
    · exact Or.inr ⟨w, v, hw, hv, hw5, hv5⟩
  · rintro ⟨hty, h⟩
    refine ⟨hty, ?_⟩
    rcases h with h | ⟨w, v, hw, hv, hw5, hv5⟩
    · exact Or.inl h
    · exact Or.inr ⟨⟨w, hw, hw5⟩, ⟨v, hv, hv5⟩⟩

/-- Claim C3: every node gets exactly one of the three outcomes, the
atomic predicate takes precedence over the screen predicate (which is
consulted only when the atomic predicate is false), and the screen
predicate holds iff the node is a FRAME with a screen-keyword name or a
dimension at least 500 (false when dimensions are missing). -/
theorem classification_trichotomy :
    (∀ n, classifyNode n = .atomic ∨ classifyNode n = .screen ∨
        classifyNode n = .neither) ∧
      (∀ n, classifyNode n = .atomic ↔ isAtomicComponent n = true) ∧
      (∀ n, classifyNode n = .screen ↔
        isAtomicComponent n = false ∧ isScreenOrFrame n = true) ∧
      (∀ n, classifyNode n = .neither ↔
        isAtomicComponent n = false ∧ isScreenOrFrame n = false) ∧
      (∀ n, isScreenOrFrame n = true ↔
        Node.type n = "FRAME" ∧
          ((∃ pat ∈ screenPatterns,
              occursIn pat.data (lowerChars (Node.name n)) = true) ∨
            (∃ w, Node.width? n = some w ∧ 500 ≤ w) ∨
            ∃ v, Node.height? n = some v ∧ 500 ≤ v)) := by
  refine ⟨?_, ?_, ?_, ?_, ?_⟩ <;> intro n
  · cases hA : isAtomicComponent n <;> cases hS : isScreenOrFrame n <;>
      simp [classifyNode, hA, hS]
  · cases hA : isAtomicComponent n <;> cases hS : isScreenOrFrame n <;>
      simp [classifyNode, hA, hS]
  · cases hA : isAtomicComponent n <;> cases hS : isScreenOrFrame n <;>
      simp [classifyNode, hA, hS]
  · cases hA : isAtomicComponent n <;> cases hS : isScreenOrFrame n <;>
      simp [classifyNode, hA, hS]
  · simp only [isScreenOrFrame, Bool.and_eq_true, Bool.or_eq_true, beq_iff_eq,
      List.any_eq_true, jsGe_iff]

/-- The ordered category table of `determineComponentCategory`, read off
the source's chain of conditionals: each entry is the pattern
alternatives checked at that step and the category returned on a match. -/
def categoryChecks : List (List String × Category) :=
  [(["statusbar"], .STATUS_BAR), (["button"], .BUTTON),
   (["input", "textfield"], .INPUT), (["text"], .TEXT), (["icon"], .ICON),
   (["image"], .IMAGE), (["avatar"], .AVATAR), (["badge"], .BADGE),
   (["card"], .CARD), (["list"], .LIST), (["tab"], .TAB),
   (["modal"], .MODAL)]

/-- First-match lookup over an ordered table of substring checks: the
specification's reading of the category rule. -/
def firstMatchCategory (name : List Char) :
    List (List String × Category) → Category
  | [] => .OTHER
  | (pats, cat) :: rest =>
    if pats.any fun p => occursIn p.data name then cat
    else firstMatchCategory name rest

/-- A bare COMPONENT node carrying only a name, for concrete instances. -/
def namedComponent (nm : String) : Node :=
  .mk nm "" "COMPONENT" none none none ⟨none, none, none⟩ none

/-- Claim C4: category assignment is first-match lookup over the fixed
ordered table (statusbar, button, input or textfield, text, icon, image,
avatar, badge, card, list, tab, modal; no match gives OTHER); in
particular a node named TextIcon is categorized TEXT and a node named
IconButton is categorized BUTTON. -/
theorem category_first_match :
    (∀ n, determineComponentCategory n =
        firstMatchCategory (lowerChars (Node.name n)) categoryChecks) ∧
      determineComponentCategory (namedComponent "TextIcon") = .TEXT ∧
      determineComponentCategory (namedComponent "IconButton") = .BUTTON := by
  refine ⟨fun n => ?_, by decide, by decide⟩
  simp [determineComponentCategory, firstMatchCategory, categoryChecks]

/- ### Records and the recursive walk of `extractAllNestedComponents` -/

/-- The record pushed for an atomic component by the walk.  The `children`
field holds the child count (`node.children?.length || 0` in the source). -/
structure ComponentRecord where
  name : String
  id : String
  path : List String
  type : String
  category : Category
  description : String
  width? : Option Rat
  height? : Option Rat
  children : Nat
  styles : Styles
deriving DecidableEq, Repr

/-- The record pushed for a screen; its `type` field is always the
constant string SCREEN. -/
structure ScreenRecord where
  name : String
  id : String
  type : String
  width? : Option Rat
  height? : Option Rat
deriving DecidableEq, Repr

/-- The component record the walk pushes for node `n` reached along
`parentPath`: its path is the parent path with the node's own name
appended. -/
def mkComponentRecord (n : Node) (parentPath : List String) : ComponentRecord :=
  { name := Node.name n
    id := Node.id n
    path := parentPath ++ [Node.name n]
    type := Node.type n
    category := determineComponentCategory n
    description := (Node.description? n).getD ""
    width? := Node.width? n
    height? := Node.height? n
    children := ((Node.children? n).map List.length).getD 0
    styles := Node.styles n }

/-- The screen record the walk pushes for node `n`. -/
def mkScreenRecord (n : Node) : ScreenRecord :=
  { name := Node.name n
    id := Node.id n
    type := "SCREEN"
    width? := Node.width? n
    height? := Node.height? n }

mutual

/-- Embedding of the recursive `walk` inside `extractAllNestedComponents`:
the node's own record (if any) is pushed before the children are visited,
and the children are visited unconditionally, left to right, with the
node's name appended to the path.  The pair holds the component and
screen accumulators in push order. -/
def walk : Node → List String → List ComponentRecord × List ScreenRecord
  | n@(.mk nm _ _ _ _ _ _ ch), parentPath =>
    let here : List ComponentRecord × List ScreenRecord :=
      if isAtomicComponent n then ([mkComponentRecord n parentPath], [])
      else if isScreenOrFrame n then ([], [mkScreenRecord n])
      else ([], [])
    let rest := walkChildren ch (parentPath ++ [nm])
    (here.1 ++ rest.1, here.2 ++ rest.2)

/-- The `if (node.children)` guard of the source: an absent children field
is skipped, a present list is iterated. -/
def walkChildren : Option (List Node) → List String →
    List ComponentRecord × List ScreenRecord
  | none, _ => ([], [])
  | some cs, p => walkList cs p

/-- The `forEach` over a children list, left to right. -/
def walkList : List Node → List String → List ComponentRecord × List ScreenRecord
  | [], _ => ([], [])
  | c :: cs, p =>
    let r1 := walk c p
    let r2 := walkList cs p
    (r1.1 ++ r2.1, r1.2 ++ r2.2)

end

/-- The result object of `extractAllNestedComponents`. -/
structure ExtractResult where
  atomicComponents : List ComponentRecord
  screens : List ScreenRecord
deriving DecidableEq, Repr

/-- Embedding of `extractAllNestedComponents`: run the walk from the
document root with an empty parent path. -/
def extractAllNestedComponents (document : Node) : ExtractResult :=
  { atomicComponents := (walk document []).1
    screens := (walk document []).2 }

mutual

/-- Instrumented walk recording each visit: the same recursion as `walk`,
emitting for every visited node the pair of the path the walk would store
on its record (parent path plus own name) and the node itself. -/
def walkTrace : Node → List String → List (List String × Node)
  | n@(.mk nm _ _ _ _ _ _ ch), parentPath =>
    (parentPath ++ [nm], n) :: walkTraceChildren ch (parentPath ++ [nm])

def walkTraceChildren : Option (List Node) → List String →
    List (List String × Node)
  | none, _ => []
  | some cs, p => walkTraceList cs p

def walkTraceList : List Node → List String → List (List String × Node)
  | [], _ => []
  | c :: cs, p => walkTrace c p ++ walkTraceList cs p

end

theorem walkChildren_eq (n : Node) (p : List String) :
    walkChildren (Node.children? n) p = walkList (childList n) p := by
  cases n with
  | mk a b c d e f g ch =>
    cases ch <;> simp [walkChildren, childList, Node.children?, walkList]

theorem walk_eq (n : Node) (p : List String) :
    walk n p =
      (((if isAtomicComponent n then ([mkComponentRecord n p], [])
          else if isScreenOrFrame n then ([], [mkScreenRecord n])
          else ([], []) : List ComponentRecord × List ScreenRecord)).1 ++
          (walkList (childList n) (p ++ [Node.name n])).1,
        ((if isAtomicComponent n then ([mkComponentRecord n p], [])
          else if isScreenOrFrame n then ([], [mkScreenRecord n])
          else ([], []) : List ComponentRecord × List ScreenRecord)).2 ++
          (walkList (childList n) (p ++ [Node.name n])).2) := by
  cases n with
  | mk a b c d e f g ch =>
    cases ch <;>
      simp [walk, walkChildren, walkList, childList, Node.children?, Node.name]

theorem walkTrace_eq (n : Node) (p : List String) :
    walkTrace n p =
      (p ++ [Node.name n], n) ::
        walkTraceList (childList n) (p ++ [Node.name n]) := by
  cases n with
  | mk a b c d e f g ch =>
    cases ch <;>
      simp [walkTrace, walkTraceChildren, walkTraceList, childList,
        Node.children?, Node.name]

/- ### Pre-order positions: the traversal specification for claim C5 -/

mutual

/-- The valid tree positions of a node (sequences of child indices), in
depth-first pre-order: the node itself first, then the positions inside
each child, in sibling order. -/
def positions : Node → List (List Nat)
  | .mk _ _ _ _ _ _ _ none => [[]]
  | .mk _ _ _ _ _ _ _ (some cs) => [] :: positionsList cs 0

/-- The positions contributed by a children list whose first child has
index `i`. -/
def positionsList : List Node → Nat → List (List Nat)
  | [], _ => []
  | c :: cs, i =>
    (positions c).map (fun ip => i :: ip) ++ positionsList cs (i + 1)

end

theorem positions_eq (n : Node) :
    positions n = [] :: positionsList (childList n) 0 := by
  cases n with
  | mk a b c d e f g ch =>
    cases ch <;> simp [positions, positionsList, childList, Node.children?]

/-- The node at a position, defaulting to the current node when the
position is exhausted or invalid. -/
def nodeAtD : Node → List Nat → Node
  | n, [] => n
  | n, i :: ip =>
    match (childList n)[i]? with
    | none => n
    | some c => nodeAtD c ip

/-- The names along the chain of nodes from `n` down to the node at the
given position, both ends included: exactly the record path the walk
assigns at that position, relative to the walk's starting path. -/
def chainNames : Node → List Nat → List String
  | n, [] => [Node.name n]
  | n, i :: ip =>
    match (childList n)[i]? with
    | none => [Node.name n]
    | some c => Node.name n :: chainNames c ip

/-- Strict pre-order comparison of tree positions: a position precedes its
proper descendants, and at the first differing index the smaller index
comes first. -/
def posBefore : List Nat → List Nat → Bool
  | [], [] => false
  | [], _ :: _ => true
  | _ :: _, [] => false
  | i :: ip, j :: jp => decide (i < j) || (i == j && posBefore ip jp)

theorem posBefore_irrefl : ∀ ip, posBefore ip ip = false := by
  intro ip
  induction ip with
  | nil => rfl
  | cons i ip ih => simp [posBefore, ih]

theorem positionsList_head (cs : List Node) :
    ∀ i ip, ip ∈ positionsList cs i → ∃ j tl, ip = j :: tl ∧ i ≤ j := by
  induction cs with
  | nil =>
    intro i ip h
    simp [positionsList] at h
  | cons c cs ih =>
    intro i ip h
    simp only [positionsList, List.mem_append, List.mem_map] at h
    rcases h with ⟨q, _, rfl⟩ | h
    · exact ⟨i, q, rfl, le_rfl⟩
    · rcases ih (i + 1) ip h with ⟨j, tl, rfl, hij⟩
      exact ⟨j, tl, rfl, by omega⟩

theorem pairwise_positionsList (cs : List Node)
    (hcs : ∀ c ∈ cs, (positions c).Pairwise fun a b => posBefore a b = true) :
    ∀ i, (positionsList cs i).Pairwise fun a b => posBefore a b = true := by
  induction cs with
  | nil =>
    intro i
    simp [positionsList]
  | cons c cs ih =>
    intro i
    simp only [positionsList]
    rw [List.pairwise_append]
    refine ⟨?_, ih (fun d hd => hcs d (List.mem_cons_of_mem _ hd)) (i + 1), ?_⟩
    · rw [List.pairwise_map]
      refine (hcs c (List.mem_cons_self c cs)).imp ?_
      intro a b hab
      simpa [posBefore] using hab
    · intro a ha b hb
      rcases List.mem_map.mp ha with ⟨q, _, rfl⟩
      rcases positionsList_head cs (i + 1) b hb with ⟨j, tl, rfl, hij⟩
      have hlt : i < j := by omega
      simp [posBefore, hlt]

theorem positions_pairwise :
    ∀ n : Node, (positions n).Pairwise fun a b => posBefore a b = true := by
  apply node_ind
  intro n ih
  rw [positions_eq]
  refine List.Pairwise.cons ?_ (pairwise_positionsList (childList n) ih 0)
  intro b hb
  rcases positionsList_head (childList n) 0 b hb with ⟨j, tl, rfl, _⟩
  rfl

theorem positions_nodup (n : Node) : (positions n).Nodup := by
  refine (positions_pairwise n).imp ?_
  intro a b hab hEq
  subst hEq
  rw [posBefore_irrefl] at hab
  cases hab

theorem size_eq_childList (n : Node) : size n = 1 + sizeList (childList n) := by
  cases n with
  | mk a b c d e f g ch =>
    cases ch <;> simp [size, sizeList, childList, Node.children?]

theorem walkTraceList_positions (n : Node) (cs : List Node) :
    ∀ (i : Nat) (p : List String),
      (∀ c ∈ cs, ∀ q, walkTrace c q =
        (positions c).map fun ip => (q ++ chainNames c ip, nodeAtD c ip)) →
      (∀ k, (childList n)[i + k]? = cs[k]?) →
      walkTraceList cs (p ++ [Node.name n]) =
        (positionsList cs i).map
          fun ip => (p ++ chainNames n ip, nodeAtD n ip) := by
  induction cs with
  | nil =>
    intro i p _ _
    simp [walkTraceList, positionsList]
  | cons c cs ih =>
    intro i p hIH hidx
    have hc0 : (childList n)[i]? = some c := by
      have h := hidx 0
      simpa using h
    simp only [walkTraceList, positionsList, List.map_append, List.map_map]
    congr 1
    · rw [hIH c (List.mem_cons_self c cs) (p ++ [Node.name n])]
      apply List.map_congr_left
      intro ip hip
      have h1 : chainNames n (i :: ip) = Node.name n :: chainNames c ip := by
        simp [chainNames, hc0]
      have h2 : nodeAtD n (i :: ip) = nodeAtD c ip := by
        simp [nodeAtD, hc0]
      simp [Function.comp, h1, h2]
    · apply ih (i + 1) p (fun d hd => hIH d (List.mem_cons_of_mem _ hd))
      intro k
      have h := hidx (k + 1)
      rw [show i + 1 + k = i + (k + 1) by omega]
      simpa using h

theorem walkTrace_positions :
    ∀ n : Node, ∀ p, walkTrace n p =
      (positions n).map fun ip => (p ++ chainNames n ip, nodeAtD n ip) := by
  apply node_ind (P := fun n => ∀ p, walkTrace n p =
    (positions n).map fun ip => (p ++ chainNames n ip, nodeAtD n ip))
  intro n ih p
  rw [walkTrace_eq, positions_eq]
  simp only [List.map_cons]
  rw [← walkTraceList_positions n (childList n) 0 p ih (fun k => by simp)]
  simp [chainNames, nodeAtD]

theorem walkTraceList_length (cs : List Node)
    (ih : ∀ c ∈ cs, ∀ p, (walkTrace c p).length = size c) :
    ∀ p, (walkTraceList cs p).length = sizeList cs := by
  induction cs with
  | nil =>
    intro p
    simp [walkTraceList, sizeList]
  | cons c cs ihl =>
    intro p
    simp only [walkTraceList, List.length_append, sizeList]
    rw [ih c (List.mem_cons_self c cs) p,
      ihl (fun d hd => ih d (List.mem_cons_of_mem _ hd)) p]

theorem walkTrace_length :
    ∀ n : Node, ∀ p, (walkTrace n p).length = size n := by
  apply node_ind (P := fun n => ∀ p, (walkTrace n p).length = size n)
  intro n ih p
  rw [walkTrace_eq, size_eq_childList]
  simp only [List.length_cons]
  rw [walkTraceList_length (childList n) ih]
  omega

/-- Claim C5: the walk's visit trace from the root is exactly the
depth-first pre-order enumeration of tree positions (parent before
children, sibling order preserved — the positions are strictly pre-order
sorted), with no duplicate positions and exactly one visit per node of
the tree; a node with absent or empty children is a leaf visited without
error; and the path stored at each visit is the names of the strict
ancestors from the root, in order, followed by the node's own name. -/
theorem walk_preorder_complete :
    (∀ n p, walkTrace n p =
        (positions n).map fun ip => (p ++ chainNames n ip, nodeAtD n ip)) ∧
      (∀ n, (positions n).Pairwise fun a b => posBefore a b = true) ∧
      (∀ n, (positions n).Nodup) ∧
      (∀ n p, (walkTrace n p).length = size n) ∧
      (∀ nm i ty w v d st p,
        walkTrace (Node.mk nm i ty w v d st none) p =
          [(p ++ [nm], Node.mk nm i ty w v d st none)]) ∧
      (∀ nm i ty w v d st p,
        walkTrace (Node.mk nm i ty w v d st (some [])) p =
          [(p ++ [nm], Node.mk nm i ty w v d st (some []))]) :=
  ⟨walkTrace_positions, positions_pairwise, positions_nodup, walkTrace_length,
    fun _ _ _ _ _ _ _ _ => rfl, fun _ _ _ _ _ _ _ _ => rfl⟩

/- ### Claim C10: the walk recurses below every node -/

/-- The component record obtained from a visit entry of the trace (the
entry already carries the full record path). -/
def componentRecordOfVisit (e : List String × Node) : ComponentRecord :=
  { name := Node.name e.2
    id := Node.id e.2
    path := e.1
    type := Node.type e.2
    category := determineComponentCategory e.2
    description := (Node.description? e.2).getD ""
    width? := Node.width? e.2
    height? := Node.height? e.2
    children := ((Node.children? e.2).map List.length).getD 0
    styles := Node.styles e.2 }

/-- The component accumulator of the walk, read off the visit trace. -/
def componentsOfTrace (trace : List (List String × Node)) :
    List ComponentRecord :=
  trace.filterMap fun e =>
    if classifyNode e.2 = .atomic then some (componentRecordOfVisit e) else none

/-- The screen accumulator of the walk, read off the visit trace. -/
def screensOfTrace (trace : List (List String × Node)) : List ScreenRecord :=
  trace.filterMap fun e =>
    if classifyNode e.2 = .screen then some (mkScreenRecord e.2) else none

theorem walkList_of_trace (cs : List Node)
    (ih : ∀ c ∈ cs, ∀ p, walk c p =
      (componentsOfTrace (walkTrace c p), screensOfTrace (walkTrace c p))) :
    ∀ p, walkList cs p =
      (componentsOfTrace (walkTraceList cs p),
        screensOfTrace (walkTraceList cs p)) := by
  induction cs with
  | nil =>
    intro p
    simp [walkList, walkTraceList, componentsOfTrace, screensOfTrace]
  | cons c cs ihl =>
    intro p
    simp only [walkList, walkTraceList, componentsOfTrace, screensOfTrace,
      List.filterMap_append]
    rw [ih c (List.mem_cons_self c cs) p,
      ihl (fun d hd => ih d (List.mem_cons_of_mem _ hd)) p]
    rfl

theorem walk_of_trace :
    ∀ n : Node, ∀ p, walk n p =
      (componentsOfTrace (walkTrace n p), screensOfTrace (walkTrace n p)) := by
  apply node_ind (P := fun n => ∀ p, walk n p =
    (componentsOfTrace (walkTrace n p), screensOfTrace (walkTrace n p)))
  intro n ih p
  rw [walk_eq, walkTrace_eq]
  simp only [componentsOfTrace, screensOfTrace, List.filterMap_cons]
  rw [walkList_of_trace (childList n) ih]
  have hrec : componentRecordOfVisit (p ++ [Node.name n], n) =
      mkComponentRecord n p := rfl
  cases hA : isAtomicComponent n with
  | true =>
    simp [classifyNode, hA, hrec, componentsOfTrace, screensOfTrace]
  | false =>
    cases hS : isScreenOrFrame n with
    | true => simp [classifyNode, hA, hS, componentsOfTrace, screensOfTrace]
    | false => simp [classifyNode, hA, hS, componentsOfTrace, screensOfTrace]

/-- A COMPONENT node nested inside another COMPONENT node, both matching
atomic patterns: a concrete instance for claim C10. -/
def nestedDemo : Node :=
  .mk "IconButton" "1:1" "COMPONENT" (some 100) (some 40) none
    ⟨none, none, none⟩
    (some [.mk "TextIcon" "1:2" "COMPONENT" (some 20) (some 20) none
      ⟨none, none, none⟩ none])

/-- Claim C10: the walk recurses into the children of every node
regardless of the node's own classification — the component and screen
accumulators are exactly the classification filters of the full visit
trace, which covers every node in pre-order — so an atomic component
nested inside another atomic component yields its own record, in
pre-order position. -/
theorem walk_recurses_all_nodes :
    (∀ n p, walk n p =
        (componentsOfTrace (walkTrace n p), screensOfTrace (walkTrace n p))) ∧
      (extractAllNestedComponents nestedDemo).atomicComponents.map
          ComponentRecord.name = ["IconButton", "TextIcon"] :=
  ⟨walk_of_trace, by decide⟩

/- ### Claim C7: registry matching in the check-component endpoint -/

/-- Embedding of the single-component existence check of
`/api/check-component`: `registryContent.includes(componentName)`, a
containment of the raw name in the raw registry text without
lower-casing. -/
def checkComponentExists (registryContent componentName : String) : Bool :=
  occursIn componentName.data registryContent.data

/-- Embedding of the bulk new-component filter of `/api/check-component`:
keep the components whose lower-cased name does not occur inside the
lower-cased registry text. -/
def newComponentsOf (registryContent : String)
    (figmaComponents : List ComponentRecord) : List ComponentRecord :=
  figmaComponents.filter fun component =>
    !occursIn (lowerChars (ComponentRecord.name component))
      (lowerChars registryContent)

/-- Claim C7 counterexample: with registry text MyButton and component
name mybutton, case-insensitive substring containment holds, yet the
endpoint's single-component existence check — which does not lower-case —
reports the component as absent, so the claim that both checks use
case-insensitive containment is false on this input. -/
theorem check_component_case_sensitive_cex :
    occursIn (lowerChars "mybutton") (lowerChars "MyButton") = true ∧
      checkComponentExists "MyButton" "mybutton" = false := by
  decide

/-- Claim C7 (amended): the bulk new-component filter uses
case-insensitive substring containment — a component is classified new
iff its lower-cased name does not occur inside the lower-cased registry
text, and existing otherwise — while the single-component existence check
uses case-sensitive containment of the raw name in the raw registry
text. -/
theorem check_component_matching :
    (∀ (registryContent : String) (figmaComponents : List ComponentRecord)
        (c : ComponentRecord),
      c ∈ newComponentsOf registryContent figmaComponents ↔
        c ∈ figmaComponents ∧
          ¬∃ pre post, lowerChars registryContent =
            pre ++ lowerChars (ComponentRecord.name c) ++ post) ∧
      ∀ registryContent componentName : String,
        checkComponentExists registryContent componentName = true ↔
          ∃ pre post,
            registryContent.data = pre ++ componentName.data ++ post := by
  constructor
  · intro reg comps c
    rw [newComponentsOf, List.mem_filter]
    constructor
    · rintro ⟨hmem, hfil⟩
      refine ⟨hmem, fun hex => ?_⟩
      rw [← occursIn_iff] at hex
      rw [hex] at hfil
      cases hfil
    · rintro ⟨hmem, hnex⟩
      refine ⟨hmem, ?_⟩
      cases hocc : occursIn (lowerChars (ComponentRecord.name c))
          (lowerChars reg) with
      | true => exact absurd ((occursIn_iff _ _).mp hocc) hnex
      | false => rfl
  · intro reg nm
    exact occursIn_iff _ _

/- ### The parse-and-check endpoint: registry diff via the oracle -/

/-- One entry of the oracle's `existing` list: the submitted component
name and the registry identifier it was matched to. -/
structure OracleMatch where
  originalName : String
  matchedName : String
deriving DecidableEq, Repr

/-- The parsed JSON object returned by the fuzzy-matching oracle. -/
structure OracleAnalysis where
  existing : List OracleMatch
  new : List String
deriving DecidableEq, Repr

/-- The external calls made by the registry-checking phase of
`/api/parse-and-check`, abstracted as inputs.  `tree?` is the paginated
repository listing (`none` when the request fails); `content?` fetches the
raw file at a path (`none` on failure); `oracle?` is the OpenAI
comparison call on the registry text and the component names (`none` when
the call fails or its answer does not parse as the expected JSON). -/
structure RegistryEnv where
  tree? : Option (List String)
  content? : String → Option String
  oracle? : String → List String → Option OracleAnalysis

/-- The candidate registry paths probed by the source, in probe order. -/
def possibleRegistryPaths : List String :=
  ["packages/customer/src/registry.ts",
   "packages/src/customer/vdlComponents/registry.ts",
   "packages/src/registry.ts",
   "src/registry.ts"]

/-- The registry-file search of the source: try each candidate path in
order and return the first one present in the repository listing. -/
def findRegistryFile (allFiles : List String) : List String → Option String
  | [] => none
  | p :: ps =>
    match allFiles.find? (fun f => f == p) with
    | some f => some f
    | none => findRegistryFile allFiles ps

/-- The test applied by the source's `existing` filter: some oracle
existing entry has this component name as its `originalName`. -/
def nameInOracleExisting (analysis : OracleAnalysis) (nm : String) : Bool :=
  (OracleAnalysis.existing analysis).any
    fun e => OracleMatch.originalName e == nm

/-- The test applied by the source's `new` filter: the oracle's new list
contains this component name. -/
def nameInOracleNew (analysis : OracleAnalysis) (nm : String) : Bool :=
  (OracleAnalysis.new analysis).any fun m => m == nm

/-- The JSON response of `/api/parse-and-check`, restricted to the fields
the specification talks about.  `availablePaths?` is populated only by the
registry-file-not-found branch, and `gitlabErrorFlag` records the presence
of the `gitlabError` object attached by the GitLab-failure branch. -/
structure ParseCheckReport where
  success : Bool
  message : String
  existing : List ComponentRecord
  new : List ComponentRecord
  analysis? : Option OracleAnalysis
  availablePaths? : Option (List String)
  gitlabErrorFlag : Bool
  screens : List ScreenRecord
deriving DecidableEq, Repr

/-- The response of the `catch (gitlabError)` branch: success with every
component declared new and the error recorded. -/
def gitlabFailureReport (atomicComponents : List ComponentRecord)
    (screens : List ScreenRecord) : ParseCheckReport :=
  { success := true
    message := "GitLab API access failed, returning all components as new"
    existing := []
    new := atomicComponents
    analysis? := none
    availablePaths? := none
    gitlabErrorFlag := true
    screens := screens }

/-- The response of the registry-file-not-found branch: success with every
component declared new and the repository listing echoed back. -/
def registryMissingReport (allFiles : List String)
    (atomicComponents : List ComponentRecord) (screens : List ScreenRecord) :
    ParseCheckReport :=
  { success := true
    message := "Registry file not found in repository"
    existing := []
    new := atomicComponents
    analysis? := none
    availablePaths? := some allFiles
    gitlabErrorFlag := false
    screens := screens }

/-- The response of the successful oracle branch: the catalogue filtered
by membership of each component's name in the oracle's two lists. -/
def matchedReport (analysis : OracleAnalysis)
    (atomicComponents : List ComponentRecord) (screens : List ScreenRecord) :
    ParseCheckReport :=
  { success := true
    message := "Components parsed and checked successfully"
    existing := atomicComponents.filter
      fun component => nameInOracleExisting analysis (ComponentRecord.name component)
    new := atomicComponents.filter
      fun component => nameInOracleNew analysis (ComponentRecord.name component)
    analysis? := some analysis
    availablePaths? := none
    gitlabErrorFlag := false
    screens := screens }

/-- Embedding of the registry-checking phase of `/api/parse-and-check`,
from the repository-tree fetch to the JSON response: any failed external
call lands in the `catch (gitlabError)` branch, a missing registry file
answers the not-found response, and otherwise the oracle's analysis is
turned into the existing/new partition by the two name filters. -/
def parseAndCheck (env : RegistryEnv) (atomicComponents : List ComponentRecord)
    (screens : List ScreenRecord) : ParseCheckReport :=
  match RegistryEnv.tree? env with
  | none => gitlabFailureReport atomicComponents screens
  | some allFiles =>
    match findRegistryFile allFiles possibleRegistryPaths with
    | none => registryMissingReport allFiles atomicComponents screens
    | some registryPath =>
      match RegistryEnv.content? env registryPath with
      | none => gitlabFailureReport atomicComponents screens
      | some registryContent =>
        match RegistryEnv.oracle? env registryContent
            (atomicComponents.map ComponentRecord.name) with
        | none => gitlabFailureReport atomicComponents screens
        | some analysis => matchedReport analysis atomicComponents screens

/-- The whole endpoint: a failed Figma fetch is the outer catch, a
terminal error response that carries no component lists at all; otherwise
the document is extracted and the registry phase runs. -/
def parseAndCheckEndpoint (document? : Option Node) (env : RegistryEnv) :
    Except String ParseCheckReport :=
  match document? with
  | none => Except.error "Parse and check failed"
  | some document =>
    Except.ok (parseAndCheck env
      (ExtractResult.atomicComponents (extractAllNestedComponents document))
      (ExtractResult.screens (extractAllNestedComponents document)))

/-- Counting helper: two filters whose tests disagree on every element of
a list split the list's element counts exactly. -/
theorem count_filter_partition {α : Type} [DecidableEq α]
    (P Q : α → Bool) :
    ∀ l : List α, (∀ a ∈ l, P a ≠ Q a) →
      ∀ c, List.count c (l.filter P) + List.count c (l.filter Q) =
        List.count c l := by
  intro l
  induction l with
  | nil =>
    intro _ c
    simp
  | cons a as ih =>
    intro h c
    have ha := h a (List.mem_cons_self a as)
    have htail := ih (fun b hb => h b (List.mem_cons_of_mem _ hb)) c
    cases hP : P a <;> cases hQ : Q a <;>
      simp [hP, hQ] at ha ⊢ <;>
      simp [List.count_cons, htail] <;>
      omega

/- ### Concrete scenarios for the diff claims -/

/-- A minimal component record with the given name, for concrete
scenarios. -/
def simpleRecord (nm : String) : ComponentRecord :=
  { name := nm
    id := ""
    path := [nm]
    type := "COMPONENT"
    category := Category.OTHER
    description := ""
    width? := none
    height? := none
    children := 0
    styles := ⟨none, none, none⟩ }

/-- A registry environment whose repository-tree request fails. -/
def envTreeDown : RegistryEnv :=
  { tree? := none
    content? := fun _ => none
    oracle? := fun _ _ => none }

/-- A registry environment where every call succeeds: the listing holds
one candidate registry path, its content is fetched, and the oracle
answers with the fixed analysis given. -/
def envWithOracle (analysis : OracleAnalysis) : RegistryEnv :=
  { tree? := some ["src/registry.ts"]
    content? := fun _ => some "export const registry = []"
    oracle? := fun _ _ => some analysis }

/-- The five-component catalogue of the registry-absent scenario. -/
def fiveComps : List ComponentRecord :=
  [simpleRecord "PrimaryButton", simpleRecord "UserAvatar",
   simpleRecord "InfoCard", simpleRecord "NavTab",
   simpleRecord "StatusBadge"]

/-- A well-formed oracle answer naming each demo component in exactly one
of its two lists. -/
def demoAnalysis : OracleAnalysis :=
  { existing := [{ originalName := "PrimaryButton",
                   matchedName := "primary-button" }]
    new := ["UserAvatar"] }

/-- The two-component catalogue used with `demoAnalysis`. -/
def demoComps : List ComponentRecord :=
  [simpleRecord "PrimaryButton", simpleRecord "UserAvatar"]

/- ### Claim C6: registry unavailable means everything is new -/

/-- Claim C6: whenever the registry content cannot be obtained — the
repository listing fails, the registry file is absent from the listing,
or the content fetch fails — the report classifies every atomic component
as new, has an empty existing list, and flags that no registry check
occurred (the not-found message, or the GitLab-failure message together
with the recorded error). -/
theorem registry_unavailable_all_new
    (env : RegistryEnv) (comps : List ComponentRecord)
    (scrs : List ScreenRecord)
    (h : RegistryEnv.tree? env = none ∨
      (∃ files, RegistryEnv.tree? env = some files ∧
        findRegistryFile files possibleRegistryPaths = none) ∨
      ∃ files rpath, RegistryEnv.tree? env = some files ∧
        findRegistryFile files possibleRegistryPaths = some rpath ∧
        RegistryEnv.content? env rpath = none) :
    ParseCheckReport.existing (parseAndCheck env comps scrs) = [] ∧
      ParseCheckReport.new (parseAndCheck env comps scrs) = comps ∧
      (ParseCheckReport.message (parseAndCheck env comps scrs) =
          "Registry file not found in repository" ∨
        ParseCheckReport.message (parseAndCheck env comps scrs) =
            "GitLab API access failed, returning all components as new" ∧
          ParseCheckReport.gitlabErrorFlag (parseAndCheck env comps scrs) =
            true) := by
  rcases h with h | ⟨files, hf, hreg⟩ | ⟨files, rpath, hf, hreg, hcontent⟩
  · simp [parseAndCheck, h, gitlabFailureReport]
  · simp [parseAndCheck, hf, hreg, registryMissingReport]
  · simp [parseAndCheck, hf, hreg, hcontent, gitlabFailureReport]

/-- Witness for claim C6: the five-component catalogue against an
unreachable registry yields an empty existing list and all five
components as new. -/
theorem registry_unavailable_all_new_witness :
    RegistryEnv.tree? envTreeDown = none ∧
      (ParseCheckReport.existing (parseAndCheck envTreeDown fiveComps []) =
          [] ∧
        ParseCheckReport.new (parseAndCheck envTreeDown fiveComps []) =
          fiveComps ∧
        (ParseCheckReport.message (parseAndCheck envTreeDown fiveComps []) =
            "Registry file not found in repository" ∨
          ParseCheckReport.message (parseAndCheck envTreeDown fiveComps []) =
              "GitLab API access failed, returning all components as new" ∧
            ParseCheckReport.gitlabErrorFlag
                (parseAndCheck envTreeDown fiveComps []) = true)) :=
  ⟨rfl, registry_unavailable_all_new envTreeDown fiveComps [] (Or.inl rfl)⟩

/- ### Claim C1: the oracle-driven partition -/

/-- Claim C1 counterexample: a degenerate oracle output that names the
catalogued component in neither list makes the component vanish from the
report — it is in the catalogue but in neither the existing nor the new
list — so it is not treated as new and the partition is not exhaustive. -/
theorem oracle_dropped_component_cex :
    simpleRecord "PrimaryButton" ∈ [simpleRecord "PrimaryButton"] ∧
      ParseCheckReport.analysis?
          (parseAndCheck (envWithOracle ⟨[], []⟩)
            [simpleRecord "PrimaryButton"] []) = some ⟨[], []⟩ ∧
      simpleRecord "PrimaryButton" ∉
        ParseCheckReport.existing
          (parseAndCheck (envWithOracle ⟨[], []⟩)
            [simpleRecord "PrimaryButton"] []) ∧
      simpleRecord "PrimaryButton" ∉
        ParseCheckReport.new
          (parseAndCheck (envWithOracle ⟨[], []⟩)
            [simpleRecord "PrimaryButton"] []) := by
  decide

/-- Claim C1 (amended): when the oracle's answer names each catalogue
component in exactly one of its two lists, the partition produced by the
registry-matching step is exhaustive and disjoint: each component's
multiplicity in the catalogue splits exactly between the existing and new
lists.  A degenerate oracle output is not repaired: a name in neither
list is dropped from both lists and a name in both lists is duplicated
into both, rather than being treated as new. -/
theorem oracle_partition_counts
    (env : RegistryEnv) (comps : List ComponentRecord)
    (scrs : List ScreenRecord) (files : List String)
    (rpath content : String) (analysis : OracleAnalysis)
    (hf : RegistryEnv.tree? env = some files)
    (hreg : findRegistryFile files possibleRegistryPaths = some rpath)
    (hcontent : RegistryEnv.content? env rpath = some content)
    (horacle : RegistryEnv.oracle? env content
      (comps.map ComponentRecord.name) = some analysis)
    (hpart : ∀ c ∈ comps,
      nameInOracleExisting analysis (ComponentRecord.name c) ≠
        nameInOracleNew analysis (ComponentRecord.name c)) :
    ∀ c, List.count c
        (ParseCheckReport.existing (parseAndCheck env comps scrs)) +
      List.count c (ParseCheckReport.new (parseAndCheck env comps scrs)) =
      List.count c comps := by
  intro c
  simp only [parseAndCheck, hf, hreg, hcontent, horacle, matchedReport]
  exact count_filter_partition _ _ comps hpart c

/-- Witness for claim C1 (amended): a two-component catalogue with a
well-formed oracle answer splits exactly. -/
theorem oracle_partition_counts_witness :
    List.count (simpleRecord "PrimaryButton")
        (ParseCheckReport.existing
          (parseAndCheck (envWithOracle demoAnalysis) demoComps [])) +
      List.count (simpleRecord "PrimaryButton")
        (ParseCheckReport.new
          (parseAndCheck (envWithOracle demoAnalysis) demoComps [])) =
      List.count (simpleRecord "PrimaryButton") demoComps :=
  oracle_partition_counts (envWithOracle demoAnalysis) demoComps []
    ["src/registry.ts"] "src/registry.ts" "export const registry = []"
    demoAnalysis rfl rfl rfl rfl (by decide) (simpleRecord "PrimaryButton")

/- ### Claim C8: no partial report returned as complete -/

/-- Claim C8 counterexample: with a degenerate oracle output the endpoint
returns a report marked successful that omits a catalogued component from
both component lists — a partial report returned as if complete. -/
theorem success_report_omits_component_cex :
    ParseCheckReport.success
        (parseAndCheck (envWithOracle ⟨[], []⟩)
          [simpleRecord "InfoCard"] []) = true ∧
      simpleRecord "InfoCard" ∈ [simpleRecord "InfoCard"] ∧
      simpleRecord "InfoCard" ∉
        ParseCheckReport.existing
          (parseAndCheck (envWithOracle ⟨[], []⟩)
            [simpleRecord "InfoCard"] []) ∧
      simpleRecord "InfoCard" ∉
        ParseCheckReport.new
          (parseAndCheck (envWithOracle ⟨[], []⟩)
            [simpleRecord "InfoCard"] []) := by
  decide

/-- Claim C8 (amended): the outer catch is a terminal error carrying no
component lists, and provided every oracle answer the run can receive
names each catalogued component in exactly one of its lists, every report
the endpoint returns as successful accounts for every catalogued atomic
component exactly once across existing and new (the registry-missing and
GitLab-failure branches put all of them in new).  A degenerate oracle
output, however, yields a success report that drops or duplicates
components (see the counterexample). -/
theorem report_accounts_all_components
    (env : RegistryEnv) (comps : List ComponentRecord)
    (scrs : List ScreenRecord)
    (hvalid : ∀ files rpath content analysis,
      RegistryEnv.tree? env = some files →
      findRegistryFile files possibleRegistryPaths = some rpath →
      RegistryEnv.content? env rpath = some content →
      RegistryEnv.oracle? env content (comps.map ComponentRecord.name) =
        some analysis →
      ∀ c ∈ comps,
        nameInOracleExisting analysis (ComponentRecord.name c) ≠
          nameInOracleNew analysis (ComponentRecord.name c)) :
    (∀ c, List.count c
        (ParseCheckReport.existing (parseAndCheck env comps scrs)) +
      List.count c (ParseCheckReport.new (parseAndCheck env comps scrs)) =
      List.count c comps) ∧
      parseAndCheckEndpoint none env =
        Except.error "Parse and check failed" := by
  refine ⟨?_, rfl⟩
  intro c
  cases hf : RegistryEnv.tree? env with
  | none => simp [parseAndCheck, hf, gitlabFailureReport]
  | some files =>
    cases hreg : findRegistryFile files possibleRegistryPaths with
    | none => simp [parseAndCheck, hf, hreg, registryMissingReport]
    | some rpath =>
      cases hcontent : RegistryEnv.content? env rpath with
      | none => simp [parseAndCheck, hf, hreg, hcontent, gitlabFailureReport]
      | some content =>
        cases horacle : RegistryEnv.oracle? env content
            (comps.map ComponentRecord.name) with
        | none =>
          simp [parseAndCheck, hf, hreg, hcontent, horacle,
            gitlabFailureReport]
        | some analysis =>
          simp only [parseAndCheck, hf, hreg, hcontent, horacle,
            matchedReport]
          exact count_filter_partition _ _ comps
            (hvalid files rpath content analysis hf hreg hcontent horacle) c

/-- Witness for claim C8 (amended): with a well-formed oracle answer the
successful report accounts for the demo catalogue exactly, and the outer
catch is a bare error. -/
theorem report_accounts_all_components_witness :
    (List.count (simpleRecord "UserAvatar")
        (ParseCheckReport.existing
          (parseAndCheck (envWithOracle demoAnalysis) demoComps [])) +
      List.count (simpleRecord "UserAvatar")
        (ParseCheckReport.new
          (parseAndCheck (envWithOracle demoAnalysis) demoComps [])) =
      List.count (simpleRecord "UserAvatar") demoComps) ∧
      parseAndCheckEndpoint none (envWithOracle demoAnalysis) =
        Except.error "Parse and check failed" :=
  ⟨(report_accounts_all_components (envWithOracle demoAnalysis) demoComps []
      (by
        intro files rpath content analysis hf hreg hcontent horacle
        cases horacle
        decide)).1 (simpleRecord "UserAvatar"),
    (report_accounts_all_components (envWithOracle demoAnalysis) demoComps []
      (by
        intro files rpath content analysis hf hreg hcontent horacle
        cases horacle
        decide)).2⟩

/- ### Claim C9: classification is partial in the name field only -/

/-- A document node as it can actually arrive over the wire: the `name`
field may be absent, unlike in `Node` where the data model guarantees
it.  All other optional fields are as in `Node`. -/
inductive RawNode where
  | mk (name? : Option String) (id type : String)
      (width? height? : Option Rat) (description? : Option String)
      (styles : Styles) (children? : Option (List RawNode)) : RawNode

def RawNode.name? : RawNode → Option String
  | .mk nm _ _ _ _ _ _ _ => nm

def RawNode.id : RawNode → String
  | .mk _ i _ _ _ _ _ _ => i

def RawNode.type : RawNode → String
  | .mk _ _ ty _ _ _ _ _ => ty

def RawNode.width? : RawNode → Option Rat
  | .mk _ _ _ w _ _ _ _ => w

def RawNode.height? : RawNode → Option Rat
  | .mk _ _ _ _ v _ _ _ => v

def RawNode.description? : RawNode → Option String
  | .mk _ _ _ _ _ d _ _ => d

def RawNode.styles : RawNode → Styles
  | .mk _ _ _ _ _ _ st _ => st

def RawNode.children? : RawNode → Option (List RawNode)
  | .mk _ _ _ _ _ _ _ ch => ch

/-- The children iterated under a raw node. -/
def rawChildList (n : RawNode) : List RawNode :=
  (RawNode.children? n).getD []

/-- The TypeError thrown by `undefined.toLowerCase()`. -/
def undefinedNameError : String :=
  "TypeError: Cannot read properties of undefined (reading toLowerCase)"

/-- JavaScript `x.toLowerCase()` on a possibly-undefined `x`: the call
throws when the value is absent. -/
def jsToLowerCase (s? : Option String) : Except String (List Char) :=
  match s? with
  | none => Except.error undefinedNameError
  | some s => Except.ok (lowerChars s)

/-- `isAtomicComponent` as executed on a raw node: the unconditional
`node.name.toLowerCase()` throws when the name is absent; the bounding
box is still absorbed silently through `jsLt`. -/
def isAtomicComponentRaw (n : RawNode) : Except String Bool := do
  let name ← jsToLowerCase (RawNode.name? n)
  let isComponent :=
    RawNode.type n == "COMPONENT" || RawNode.type n == "INSTANCE"
  let isAtomic := atomicPatterns.any fun pat => occursIn pat.data name
  let isSmall := jsLt (RawNode.width? n) 500 && jsLt (RawNode.height? n) 500
  pure (isComponent && (isAtomic || isSmall))

/-- `isScreenOrFrame` as executed on a raw node. -/
def isScreenOrFrameRaw (n : RawNode) : Except String Bool := do
  let name ← jsToLowerCase (RawNode.name? n)
  let isFrame := RawNode.type n == "FRAME"
  let isScreen := screenPatterns.any fun pat => occursIn pat.data name
  let isLarge :=
    jsGe (RawNode.width? n) 500 || jsGe (RawNode.height? n) 500
  pure (isFrame && (isScreen || isLarge))

/-- `determineComponentCategory` as executed on a raw node. -/
def determineComponentCategoryRaw (n : RawNode) : Except String Category := do
  let name ← jsToLowerCase (RawNode.name? n)
  pure
    (if occursIn "statusbar".data name then .STATUS_BAR
    else if occursIn "button".data name then .BUTTON
    else if occursIn "input".data name || occursIn "textfield".data name then
      .INPUT
    else if occursIn "text".data name then .TEXT
    else if occursIn "icon".data name then .ICON
    else if occursIn "image".data name then .IMAGE
    else if occursIn "avatar".data name then .AVATAR
    else if occursIn "badge".data name then .BADGE
    else if occursIn "card".data name then .CARD
    else if occursIn "list".data name then .LIST
    else if occursIn "tab".data name then .TAB
    else if occursIn "modal".data name then .MODAL
    else .OTHER)

/-- The total node carrying the classification-relevant fields of a raw
node under the given name; the classifiers never read children, which are
dropped. -/
def withName (n : RawNode) (nm : String) : Node :=
  Node.mk nm (RawNode.id n) (RawNode.type n) (RawNode.width? n)
    (RawNode.height? n) (RawNode.description? n) (RawNode.styles n) none

mutual

/-- The walk over raw nodes, in the exception monad: each visit first runs
the atomic classifier (which throws when the name is absent), then if
needed the screen classifier, then recurses into the children; a thrown
error aborts the whole traversal, as an exception aborts `forEach`. -/
def walkRaw : RawNode → List String →
    Except String (List ComponentRecord × List ScreenRecord)
  | n@(.mk nm? i ty w v d st ch), parentPath => do
    let isAtomic ← isAtomicComponentRaw n
    let here ←
      if isAtomic then do
        let category ← determineComponentCategoryRaw n
        pure ([({ name := nm?.getD "", id := i,
                  path := parentPath ++ [nm?.getD ""], type := ty,
                  category := category, description := d.getD "",
                  width? := w, height? := v,
                  children := (ch.map List.length).getD 0,
                  styles := st } : ComponentRecord)],
          ([] : List ScreenRecord))
      else do
        let isScreen ← isScreenOrFrameRaw n
        if isScreen then
          pure (([] : List ComponentRecord),
            [({ name := nm?.getD "", id := i, type := "SCREEN",
                width? := w, height? := v } : ScreenRecord)])
        else
          pure (([] : List ComponentRecord), ([] : List ScreenRecord))
    let rest ← walkRawChildren ch (parentPath ++ [nm?.getD ""])
    pure (here.1 ++ rest.1, here.2 ++ rest.2)

def walkRawChildren : Option (List RawNode) → List String →
    Except String (List ComponentRecord × List ScreenRecord)
  | none, _ => pure ([], [])
  | some cs, p => walkRawList cs p

def walkRawList : List RawNode → List String →
    Except String (List ComponentRecord × List ScreenRecord)
  | [], _ => pure ([], [])
  | c :: cs, p => do
    let r1 ← walkRaw c p
    let r2 ← walkRawList cs p
    pure (r1.1 ++ r2.1, r1.2 ++ r2.2)

end

mutual

/-- Does every node of the raw tree carry a name? -/
def allNamed : RawNode → Bool
  | .mk none _ _ _ _ _ _ _ => false
  | .mk (some _) _ _ _ _ _ _ none => true
  | .mk (some _) _ _ _ _ _ _ (some cs) => allNamedList cs

def allNamedList : List RawNode → Bool
  | [] => true
  | c :: cs => allNamed c && allNamedList cs

end

/-- Did an exception-monad computation return normally? -/
def isOkE {α : Type} : Except String α → Bool
  | .ok _ => true
  | .error _ => false

mutual

def sizeRaw : RawNode → Nat
  | .mk _ _ _ _ _ _ _ none => 1
  | .mk _ _ _ _ _ _ _ (some cs) => 1 + sizeRawList cs

def sizeRawList : List RawNode → Nat
  | [] => 0
  | c :: cs => sizeRaw c + sizeRawList cs

end

theorem sizeRawList_le_of_mem {c : RawNode} :
    ∀ cs : List RawNode, c ∈ cs → sizeRaw c ≤ sizeRawList cs := by
  intro cs h
  induction cs with
  | nil => cases h
  | cons a as ih =>
    rcases List.mem_cons.mp h with rfl | h2
    · simp only [sizeRawList]
      omega
    · have := ih h2
      simp only [sizeRawList]
      omega

theorem sizeRaw_pos (n : RawNode) : 0 < sizeRaw n := by
  cases n with
  | mk a b c d e f g ch => cases ch <;> simp [sizeRaw]

theorem sizeRaw_child_lt {c n : RawNode} (h : c ∈ rawChildList n) :
    sizeRaw c < sizeRaw n := by
  cases n with
  | mk a b ty d e f g ch =>
    cases ch with
    | none => simp [rawChildList, RawNode.children?] at h
    | some cs =>
      simp only [rawChildList, RawNode.children?, Option.getD] at h
      have h1 := sizeRawList_le_of_mem _ h
      simp only [sizeRaw]
      omega

/-- Strong induction over raw trees. -/
theorem rawNode_ind (P : RawNode → Prop)
    (step : ∀ n, (∀ c ∈ rawChildList n, P c) → P n) : ∀ n, P n := by
  intro n
  have H : ∀ k, ∀ m : RawNode, sizeRaw m ≤ k → P m := by
    intro k
    induction k with
    | zero =>
      intro m hm
      have := sizeRaw_pos m
      omega
    | succ k ih =>
      intro m hm
      apply step
      intro c hc
      have := sizeRaw_child_lt hc
      exact ih c (by omega)
  exact H (sizeRaw n) n le_rfl

theorem isAtomicComponentRaw_eq (n : RawNode) :
    isAtomicComponentRaw n =
      match RawNode.name? n with
      | none => Except.error undefinedNameError
      | some nm => Except.ok (isAtomicComponent (withName n nm)) := by
  cases n with
  | mk nm? i ty w v d st ch => cases nm? <;> rfl

theorem isScreenOrFrameRaw_eq (n : RawNode) :
    isScreenOrFrameRaw n =
      match RawNode.name? n with
      | none => Except.error undefinedNameError
      | some nm => Except.ok (isScreenOrFrame (withName n nm)) := by
  cases n with
  | mk nm? i ty w v d st ch => cases nm? <;> rfl

theorem determineComponentCategoryRaw_eq (n : RawNode) :
    determineComponentCategoryRaw n =
      match RawNode.name? n with
      | none => Except.error undefinedNameError
      | some nm => Except.ok (determineComponentCategory (withName n nm)) := by
  cases n with
  | mk nm? i ty w v d st ch => cases nm? <;> rfl

theorem isOkE_bind_pure {α β : Type} (e : Except String α) (g : α → β) :
    isOkE (Except.bind e fun a => pure (g a)) = isOkE e := by
  cases e <;> rfl

theorem walkRawList_ok (cs : List RawNode)
    (ih : ∀ c ∈ cs, ∀ p, isOkE (walkRaw c p) = allNamed c) :
    ∀ p, isOkE (walkRawList cs p) = allNamedList cs := by
  induction cs with
  | nil => intro p; rfl
  | cons c cs ihl =>
    intro p
    have h1 := ih c (List.mem_cons_self c cs) p
    have h2 := ihl (fun d hd => ih d (List.mem_cons_of_mem _ hd)) p
    simp only [walkRawList, allNamedList]
    cases hc : walkRaw c p with
    | error e =>
      rw [hc] at h1
      rw [← h1]
      rfl
    | ok r1 =>
      rw [hc] at h1
      cases hcs : walkRawList cs p with
      | error e2 =>
        rw [hcs] at h2
        rw [← h1, ← h2]
        rfl
      | ok r2 =>
        rw [hcs] at h2
        rw [← h1, ← h2]
        rfl

theorem walkRaw_ok : ∀ n : RawNode, ∀ p, isOkE (walkRaw n p) = allNamed n := by
  apply rawNode_ind (P := fun n => ∀ p, isOkE (walkRaw n p) = allNamed n)
  intro n ih p
  cases n with
  | mk nm? i ty w v d st ch =>
    cases nm? with
    | none => rfl
    | some nm =>
      have hchildren : ∀ q, isOkE (walkRawChildren ch q) =
          allNamed (RawNode.mk (some nm) i ty w v d st ch) := by
        intro q
        cases ch with
        | none => rfl
        | some cs =>
          rw [show walkRawChildren (some cs) q = walkRawList cs q from rfl]
          rw [walkRawList_ok cs (fun c hc => ih c hc) q]
          rfl
      have hA : isAtomicComponentRaw (RawNode.mk (some nm) i ty w v d st ch) =
          Except.ok (isAtomicComponent
            (withName (RawNode.mk (some nm) i ty w v d st ch) nm)) := rfl
      have hS : isScreenOrFrameRaw (RawNode.mk (some nm) i ty w v d st ch) =
          Except.ok (isScreenOrFrame
            (withName (RawNode.mk (some nm) i ty w v d st ch) nm)) := rfl
      simp only [walkRaw, Option.getD_some]
      rw [hA]
      cases hB : isAtomicComponent
          (withName (RawNode.mk (some nm) i ty w v d st ch) nm) with
      | true =>
        cases hW : walkRawChildren ch (p ++ [nm]) with
        | error e =>
          have hc2 := hchildren (p ++ [nm])
          rw [hW] at hc2
          exact hc2
        | ok r =>
          have hc2 := hchildren (p ++ [nm])
          rw [hW] at hc2
          exact hc2
      | false =>
        rw [hS]
        cases hSB : isScreenOrFrame
            (withName (RawNode.mk (some nm) i ty w v d st ch) nm) with
        | true =>
          cases hW : walkRawChildren ch (p ++ [nm]) with
          | error e =>
            have hc2 := hchildren (p ++ [nm])
            rw [hW] at hc2
            exact hc2
          | ok r =>
            have hc2 := hchildren (p ++ [nm])
            rw [hW] at hc2
            exact hc2
        | false =>
          cases hW : walkRawChildren ch (p ++ [nm]) with
          | error e =>
            have hc2 := hchildren (p ++ [nm])
            rw [hW] at hc2
            exact hc2
          | ok r =>
            have hc2 := hchildren (p ++ [nm])
            rw [hW] at hc2
            exact hc2

/-- Claim C9: the three classification functions read the name eagerly
and nothing else partially — on a node with a present name each returns
normally the value of its total counterpart, on a node lacking a name
each throws the TypeError of `undefined.toLowerCase()`, while an absent
bounding box or children field is absorbed without error — and
consequently the walk returns normally iff every node of the tree carries
a name. -/
theorem classification_requires_name :
    (∀ n, isAtomicComponentRaw n =
        match RawNode.name? n with
        | none => Except.error undefinedNameError
        | some nm => Except.ok (isAtomicComponent (withName n nm))) ∧
      (∀ n, isScreenOrFrameRaw n =
        match RawNode.name? n with
        | none => Except.error undefinedNameError
        | some nm => Except.ok (isScreenOrFrame (withName n nm))) ∧
      (∀ n, determineComponentCategoryRaw n =
        match RawNode.name? n with
        | none => Except.error undefinedNameError
        | some nm => Except.ok (determineComponentCategory (withName n nm))) ∧
      (∀ n p, isOkE (walkRaw n p) = allNamed n) :=
  ⟨isAtomicComponentRaw_eq, isScreenOrFrameRaw_eq,
    determineComponentCategoryRaw_eq, walkRaw_ok⟩
